import Mathlib

/-!
# Verification of the miso disc audio player

Shallow embedding of the core of the repository:
* `src/routes/+page.svelte` — disc physics render loop (`tick`), track
  selection (`setSong`), pointer drag handlers (`onMouseDown`/`onMouseUp`),
  keyboard and media-session handlers;
* `src/lib/player.ts` — audio output graph manager (`initPlayer`, `play`,
  `setPlaybackRate`);
* `src/lib/utils.ts` — pure angle math (`lerp`, `lerpAngle`).

JavaScript numbers are embedded as real numbers (`ℝ`) in the kinematic
code and as integers (`ℤ`) where the program only ever holds integral
values (queue indices).  The JavaScript `%` operator is truncated
remainder: on integers it is `Int.tmod`, on reals it is `jsMod` below.
-/

namespace Miso

/-! ## Track queue and `setSong` (src/routes/+page.svelte) -/

/-- A queue entry, as built by `onDrop`:
`{ title, artist, cover, src }`. -/
structure Song where
  title : String
  artist : String
  cover : String
  src : String
deriving DecidableEq

/-- The part of the page state that `setSong` reads and writes for
index bookkeeping: the queue and `currIndex`. -/
structure QueueState where
  queue : List Song
  currIndex : ℤ
deriving DecidableEq

/-- The index computation of `setSong`:
`currIndex = Math.max(0, index % queue.length)`.
JavaScript `%` on integral values is truncated remainder (`Int.tmod`):
the result carries the sign of the dividend. -/
def setSongIndex (index : ℤ) (len : ℕ) : ℤ :=
  max 0 (Int.tmod index len)

/-- `setSong` as it acts on the queue state:
`if (queue.length == 0) return;` then
`currIndex = Math.max(0, index % queue.length);`.
(The playback, theming and media-session side effects do not touch
`queue` or `currIndex` and are modelled by the event machine below.) -/
def setSong (st : QueueState) (index : ℤ) : QueueState :=
  if st.queue.length = 0 then st
  else { st with currIndex := setSongIndex index st.queue.length }

/-- A sample two-song queue, used to instantiate hypotheses at a
concrete input. -/
def q2ex : QueueState :=
  { queue := [{ title := "rainmaker", artist := "x", cover := "c0", src := "u0" },
              { title := "second", artist := "y", cover := "c1", src := "u1" }],
    currIndex := 0 }

noncomputable section

/-! ## Audio output graph manager (src/lib/player.ts)

The browser audio nodes are modelled by the state they carry that the
program observes: whether a source has been stopped and its playback
rate, the gain value and the filter frequency. -/

/-- An `AudioBufferSourceNode`: `stopped` records whether `stop()` has
been called on it; `playbackRate` starts at the browser default `1`. -/
structure Source where
  stopped : Bool
  playbackRate : ℝ

/-- The module-level mutable state of `player.ts`: `audioCtx` (modelled
by `initialized`), `source`, `gainNode` (its gain value) and `filter`
(its frequency), each absent until first assigned. -/
structure PlayerState where
  initialized : Bool
  source : Option Source
  gain : Option ℝ
  filterFreq : Option ℝ

/-- `initPlayer()`: creates the audio context. -/
def initPlayer : PlayerState :=
  { initialized := true, source := none, gain := none, filterFreq := none }

/-- The first statement of `play`: `if (source) source.stop();`. -/
def stopActive (st : PlayerState) : PlayerState :=
  { st with source := st.source.map fun s => { s with stopped := true } }

/-- `play(buffer)` from player.ts.  The construction of the new source
(`createBufferSource`, buffer assignment, node wiring, `start()`) either
succeeds or throws; `ok` is that outcome (false for a corrupt or
undecodable buffer).  The returned Bool reports success.  Note the code
stops the old source *before* the construction of the new one: on
failure the state still carries the stopped old source. -/
def play (st : PlayerState) (ok : Bool) : PlayerState × Bool :=
  let st1 := stopActive st
  if ok then
    ({ st1 with source := some { stopped := false, playbackRate := 1 },
                gain := some 0.5, filterFreq := some 22050 }, true)
  else (st1, false)

/-- `setPlaybackRate(rate)`: `if (!source || !audioCtx) return;` then
`source.playbackRate.setValueAtTime(rate, audioCtx.currentTime)`. -/
def setPlaybackRate (st : PlayerState) (rate : ℝ) : PlayerState :=
  match st.source, st.initialized with
  | some s, true => { st with source := some { s with playbackRate := rate } }
  | _, _ => st

/-! ## Angle utilities (src/lib/utils.ts) -/

/-- Truncation toward zero, the rounding used by the JavaScript `%`
operator. -/
def jsTrunc (z : ℝ) : ℤ :=
  if 0 ≤ z then ⌊z⌋ else ⌈z⌉

/-- JavaScript `x % y` on numbers: truncated remainder, the result has
the sign of the dividend `x`. -/
def jsMod (x y : ℝ) : ℝ :=
  x - y * jsTrunc (x / y)

/-- `lerp(a, b, t) = a + (b - a) * t`. -/
def lerp (a b t : ℝ) : ℝ :=
  a + (b - a) * t

/-- `lerpAngle` from utils.ts:
```
const difference = (b - a) % (Math.PI * 2)
const short_angle_dist = (2 * difference) % (Math.PI * 2) - difference
return a + short_angle_dist * t;
``` -/
def lerpAngle (a b t : ℝ) : ℝ :=
  let difference := jsMod (b - a) (Real.pi * 2)
  let short_angle_dist := jsMod (2 * difference) (Real.pi * 2) - difference
  a + short_angle_dist * t

/-- `radToDeg(n) = n * (180 / Math.PI)`. -/
def radToDeg (n : ℝ) : ℝ :=
  n * (180 / Real.pi)

/-- The angular distance that `lerpAngle a b` travels per unit of `t`
(the `short_angle_dist` local of the source, as a function of `b - a`). -/
def shortDist (x : ℝ) : ℝ :=
  jsMod (2 * jsMod x (Real.pi * 2)) (Real.pi * 2) - jsMod x (Real.pi * 2)

/-! ## Disc physics and render loop (src/routes/+page.svelte) -/

/-- `const discAcceleration = 0.03;` -/
def discAcceleration : ℝ := 0.03

/-- `const discMaxSpeed = 1.5;` -/
def discMaxSpeed : ℝ := 1.5

/-- The component state read and written by `tick` and the input
handlers.  `lastRateArg` records the argument of the most recent
`setPlaybackRate` call issued by `tick` (none before the first frame). -/
structure DiscState where
  isPaused : Bool
  isDiskSpinning : Bool
  isDiskDragging : Bool
  discVelocity : ℝ
  discRotation : ℝ
  dragStartRotation : ℝ
  mousePos : ℝ × ℝ
  lastRateArg : Option ℝ
  player : PlayerState

/-- One call of `tick()`.  `delta` is the measured wall-clock frame
delta in seconds; `targetRotation` is the `Math.atan2` of the pointer
position relative to the disc centre — the bounding rectangle of the
disc element is environment data, so the resulting angle is taken as an
input of the frame.  The body follows the source line by line:
velocity update when `isDiskSpinning`, drag blend when `isDiskDragging`,
then unconditionally `discRotation += discVelocity * delta` and
`setPlaybackRate(discVelocity / discMaxSpeed)`. -/
def tick (st : DiscState) (delta targetRotation : ℝ) : DiscState :=
  let v :=
    if st.isDiskSpinning then
      if st.isPaused then max (st.discVelocity - discAcceleration) 0
      else min (st.discVelocity + discAcceleration) discMaxSpeed
    else st.discVelocity
  let r1 :=
    if st.isDiskDragging then
      lerpAngle st.discRotation (targetRotation + st.dragStartRotation) 0.05
    else st.discRotation
  let r := r1 + v * delta
  let rate := v / discMaxSpeed
  { st with discVelocity := v, discRotation := r,
            lastRateArg := some rate,
            player := setPlaybackRate st.player rate }

/-- The inputs that mutate the state between and during frames:
a frame of the render loop, the space-key pause toggle, the pointer
handlers on the disc, the playback part of `setSong` (its `play` call
followed by `isPaused = false`, the latter not reached when `play`
throws), and the media-session play and pause handlers. -/
inductive Event where
  | frame (delta targetRotation : ℝ)
  | keySpace
  | mouseDown
  | mouseUp
  | mouseMove (x y : ℝ)
  | selectSong (ok : Bool)
  | mediaPlay
  | mediaPause

/-- Effect of one event on the component state, each case transcribed
from the corresponding handler in the source. -/
def step (st : DiscState) : Event → DiscState
  | .frame d t => tick st d t
  | .keySpace => { st with isPaused := !st.isPaused }
  | .mouseDown => { st with isDiskSpinning := false, isDiskDragging := true,
                            dragStartRotation := st.discRotation }
  | .mouseUp => { st with isDiskSpinning := true, isDiskDragging := false }
  | .mouseMove x y => { st with mousePos := (x, y) }
  | .selectSong ok =>
      let r := play st.player ok
      { st with player := r.1, isPaused := if r.2 then false else st.isPaused }
  | .mediaPlay => { st with isPaused := false }
  | .mediaPause => { st with isPaused := true }

/-- Run a sequence of events. -/
def run (st : DiscState) (es : List Event) : DiscState :=
  es.foldl step st

/-- The component state at mount: `isPaused = true`, spinning freely,
velocity and rotation `0`, no playback-rate call issued yet, player
initialised by `initPlayer()`. -/
def initState : DiscState where
  isPaused := true
  isDiskSpinning := true
  isDiskDragging := false
  discVelocity := 0
  discRotation := 0
  dragStartRotation := 0
  mousePos := (0, 0)
  lastRateArg := none
  player := initPlayer

/-- A run of consecutive frames, given as (delta, targetRotation)
pairs. -/
def frames (fs : List (ℝ × ℝ)) : List Event :=
  fs.map fun p => Event.frame p.1 p.2

/-- Events that can occur strictly inside a drag gesture: render frames
and pointer moves (no pause/play toggle, no track change). -/
def isDragEvent (e : Event) : Prop :=
  (∃ d t, e = Event.frame d t) ∨ (∃ x y, e = Event.mouseMove x y)

/-- The mounted state with playback running (`isPaused = false`), as
after the first successful `setSong`. -/
def playingInitState : DiscState :=
  { initState with isPaused := false }

/-- A paused, freely spinning state with residual velocity `1`. -/
def pausedSpinState : DiscState :=
  { initState with discVelocity := 1 }

/-- A state in the middle of a drag gesture (pointer down at rotation
`0`) with the velocity frozen at `discMaxSpeed`. -/
def draggingState : DiscState :=
  { initState with isDiskSpinning := false, isDiskDragging := true,
                   discVelocity := discMaxSpeed }

/-- A player with a live (started, not stopped) source, as after a
successful `play`. -/
def activePlayer : PlayerState :=
  { initialized := true, source := some { stopped := false, playbackRate := 1 },
    gain := some 0.5, filterFreq := some 22050 }

end

/-! ## Helper lemmas -/

/-- Truncated remainder of a nonpositive dividend is nonpositive. -/
lemma tmod_nonpos (i N : ℤ) (hi : i ≤ 0) : i.tmod N ≤ 0 := by
  cases i with
  | ofNat m =>
    have hm : (m : ℤ) ≤ 0 := by simpa using hi
    have hm0 : m = 0 := by omega
    subst hm0
    simp [Int.zero_tmod]
  | negSucc m =>
    cases N with
    | ofNat n =>
      simp only [Int.tmod, Int.ofNat_eq_natCast]
      omega
    | negSucc n =>
      simp only [Int.tmod, Int.ofNat_eq_natCast]
      omega

/-- The `currIndex` field written by `setSong` on a non-empty queue. -/
lemma setSong_currIndex (st : QueueState) (i : ℤ) (hq : st.queue.length ≠ 0) :
    (setSong st i).currIndex = setSongIndex i st.queue.length := by
  unfold setSong
  rw [if_neg hq]

/-! ## Claim theorems: track selection -/

/-- C2 counterexample: on the two-song queue, `setSong(-1)` sets
`currIndex` to `0`, whereas the claimed true-modulo formula
`((requestedIndex % N) + N) % N` (with the JavaScript truncated `%`)
gives `N - 1 = 1`. -/
theorem setSong_neg_wraparound_cex :
    (setSong q2ex (-1)).currIndex = 0 ∧
    (setSong q2ex (-1)).currIndex
      ≠ (Int.tmod (-1) q2ex.queue.length + q2ex.queue.length).tmod
          q2ex.queue.length := by
  decide

/-- C2 amended: on a non-empty queue, `setSong` computes
`currIndex = max(0, requestedIndex % N)` with the truncated JavaScript
remainder: a nonnegative requested index is reduced by true modulo (so
`setSong(N)` selects index `0`), but a negative requested index has a
nonpositive remainder and is clamped to `0`, so `setSong(-1)` from index
`0` selects index `0`, not `N - 1`. -/
theorem setSong_index_clamp_behaviour (st : QueueState) (i : ℤ)
    (hq : st.queue.length ≠ 0) :
    (0 ≤ i → (setSong st i).currIndex = i % st.queue.length) ∧
    (i < 0 → (setSong st i).currIndex = 0) ∧
    (setSong st st.queue.length).currIndex = 0 := by
  have hN : (0 : ℤ) < st.queue.length := by
    exact_mod_cast Nat.pos_of_ne_zero hq
  refine ⟨fun hi => ?_, fun hi => ?_, ?_⟩
  · rw [setSong_currIndex st i hq, setSongIndex,
      Int.tmod_eq_emod hi (by positivity)]
    exact max_eq_right (Int.emod_nonneg i (by positivity))
  · rw [setSong_currIndex st i hq, setSongIndex]
    exact max_eq_left (tmod_nonpos i st.queue.length hi.le)
  · rw [setSong_currIndex st st.queue.length hq, setSongIndex]
    simp [Int.tmod_self]

/-- C2 amended witness at the concrete two-song queue: `setSong(-1)`
selects index `0`. -/
theorem setSong_index_clamp_behaviour_witness :
    (setSong q2ex (-1)).currIndex = 0 :=
  (setSong_index_clamp_behaviour q2ex (-1) (by decide)).2.1 (by decide)

/-- C10: on a non-empty queue, `setSong` always leaves `currIndex`
inside `[0, queue.length)`, for every integer argument, negative ones
included. -/
theorem setSong_currIndex_in_bounds (st : QueueState) (i : ℤ)
    (hq : st.queue.length ≠ 0) :
    0 ≤ (setSong st i).currIndex ∧
    (setSong st i).currIndex < st.queue.length := by
  rw [setSong_currIndex st i hq, setSongIndex]
  have hN : (0 : ℤ) < st.queue.length := by
    exact_mod_cast Nat.pos_of_ne_zero hq
  have h := Int.tmod_lt_of_pos i hN
  constructor
  · exact le_max_left 0 _
  · omega

/-- C10 witness at the concrete two-song queue and a negative index. -/
theorem setSong_currIndex_in_bounds_witness :
    0 ≤ (setSong q2ex (-7)).currIndex ∧
    (setSong q2ex (-7)).currIndex < q2ex.queue.length :=
  setSong_currIndex_in_bounds q2ex (-7) (by decide)

/-! ## Claim theorems: audio output graph manager -/

/-- C7: `play` stops the previously active source as its very first
statement, before the construction of the new source; so when the
construction fails, the previously playing source has already been
stopped — the previous audio state is not left unaffected.  Evaluated
at a player with a live source and a failing buffer: the call reports
failure and the old source is left stopped. -/
theorem play_failure_stops_previous :
    (play activePlayer false).2 = false ∧
    (play activePlayer false).1.source
      = some { stopped := true, playbackRate := 1 } := by
  constructor <;> rfl

/-! ## Helper lemmas: the render-loop machine -/

/-- Running a concatenation of event lists runs them in order. -/
lemma run_append (st : DiscState) (es1 es2 : List Event) :
    run st (es1 ++ es2) = run (run st es1) es2 :=
  List.foldl_append step st es1 es2

/-- One event keeps the velocity inside `[0, discMaxSpeed]`. -/
lemma vel_range_step (st : DiscState) (e : Event)
    (h0 : 0 ≤ st.discVelocity) (h1 : st.discVelocity ≤ discMaxSpeed) :
    0 ≤ (step st e).discVelocity ∧ (step st e).discVelocity ≤ discMaxSpeed := by
  have ha : (0 : ℝ) ≤ discAcceleration := by norm_num [discAcceleration]
  have hM : (0 : ℝ) ≤ discMaxSpeed := by norm_num [discMaxSpeed]
  cases e with
  | frame d t =>
    have hv : (step st (Event.frame d t)).discVelocity =
        (if st.isDiskSpinning then
          if st.isPaused then max (st.discVelocity - discAcceleration) 0
          else min (st.discVelocity + discAcceleration) discMaxSpeed
        else st.discVelocity) := rfl
    rw [hv]
    split
    · split
      · exact ⟨le_max_right _ _, max_le (by linarith) hM⟩
      · exact ⟨le_min (by linarith) hM, min_le_right _ _⟩
    · exact ⟨h0, h1⟩
  | keySpace => exact ⟨h0, h1⟩
  | mouseDown => exact ⟨h0, h1⟩
  | mouseUp => exact ⟨h0, h1⟩
  | mouseMove x y => exact ⟨h0, h1⟩
  | selectSong ok => exact ⟨h0, h1⟩
  | mediaPlay => exact ⟨h0, h1⟩
  | mediaPause => exact ⟨h0, h1⟩

/-- Any event sequence keeps the velocity inside `[0, discMaxSpeed]`. -/
lemma vel_range_run (es : List Event) : ∀ st : DiscState,
    0 ≤ st.discVelocity → st.discVelocity ≤ discMaxSpeed →
    0 ≤ (run st es).discVelocity ∧ (run st es).discVelocity ≤ discMaxSpeed := by
  induction es with
  | nil => exact fun st h0 h1 => ⟨h0, h1⟩
  | cons e es ih =>
    intro st h0 h1
    have h := vel_range_step st e h0 h1
    exact ih (step st e) h.1 h.2

/-- Frames leave the pause and drag flags untouched. -/
lemma run_frames_flags (fs : List (ℝ × ℝ)) : ∀ st : DiscState,
    (run st (frames fs)).isPaused = st.isPaused ∧
    (run st (frames fs)).isDiskSpinning = st.isDiskSpinning ∧
    (run st (frames fs)).isDiskDragging = st.isDiskDragging := by
  induction fs with
  | nil => exact fun st => ⟨rfl, rfl, rfl⟩
  | cons p fs ih => exact fun st => ih (step st (Event.frame p.1 p.2))

/-- Closed form of the velocity along a paused free-spinning run of
frames: each frame subtracts `discAcceleration` and clamps at `0`. -/
lemma run_frames_paused (fs : List (ℝ × ℝ)) : ∀ st : DiscState,
    st.isPaused = true → st.isDiskSpinning = true → 0 ≤ st.discVelocity →
    (run st (frames fs)).discVelocity
      = max (st.discVelocity - (fs.length : ℝ) * discAcceleration) 0 := by
  have ha : (0 : ℝ) ≤ discAcceleration := by norm_num [discAcceleration]
  induction fs with
  | nil =>
    intro st hp hs hv
    show st.discVelocity = _
    simp only [List.length_nil, Nat.cast_zero, zero_mul, sub_zero]
    exact (max_eq_left hv).symm
  | cons p fs ih =>
    intro st hp hs hv
    have hv1 : (step st (Event.frame p.1 p.2)).discVelocity
        = max (st.discVelocity - discAcceleration) 0 := by
      show (if st.isDiskSpinning then
          if st.isPaused then max (st.discVelocity - discAcceleration) 0
          else min (st.discVelocity + discAcceleration) discMaxSpeed
        else st.discVelocity) = _
      rw [hs, hp]
      simp
    have hstep : run st (frames (p :: fs))
        = run (step st (Event.frame p.1 p.2)) (frames fs) := rfl
    rw [hstep, ih (step st (Event.frame p.1 p.2)) hp hs
      (by rw [hv1]; exact le_max_right _ _), hv1]
    simp only [List.length_cons]
    push_cast
    have hn : (0 : ℝ) ≤ (fs.length : ℝ) * discAcceleration := by positivity
    rcases le_total (st.discVelocity - discAcceleration) 0 with h | h
    · rw [max_eq_right h, zero_sub, max_eq_right (by linarith),
        max_eq_right (by nlinarith)]
    · rw [max_eq_left h]
      congr 1
      ring

/-- Closed form of the velocity along an unpaused free-spinning run of
frames: each frame adds `discAcceleration` and clamps at
`discMaxSpeed`. -/
lemma run_frames_unpaused (fs : List (ℝ × ℝ)) : ∀ st : DiscState,
    st.isPaused = false → st.isDiskSpinning = true →
    0 ≤ st.discVelocity → st.discVelocity ≤ discMaxSpeed →
    (run st (frames fs)).discVelocity
      = min (st.discVelocity + (fs.length : ℝ) * discAcceleration) discMaxSpeed := by
  have ha : (0 : ℝ) ≤ discAcceleration := by norm_num [discAcceleration]
  induction fs with
  | nil =>
    intro st hp hs hv0 hv1
    show st.discVelocity = _
    simp only [List.length_nil, Nat.cast_zero, zero_mul, add_zero]
    exact (min_eq_left hv1).symm
  | cons p fs ih =>
    intro st hp hs hv0 hv1
    have hM : (0 : ℝ) ≤ discMaxSpeed := by norm_num [discMaxSpeed]
    have hv1' : (step st (Event.frame p.1 p.2)).discVelocity
        = min (st.discVelocity + discAcceleration) discMaxSpeed := by
      show (if st.isDiskSpinning then
          if st.isPaused then max (st.discVelocity - discAcceleration) 0
          else min (st.discVelocity + discAcceleration) discMaxSpeed
        else st.discVelocity) = _
      rw [hs, hp]
      simp
    have hstep : run st (frames (p :: fs))
        = run (step st (Event.frame p.1 p.2)) (frames fs) := rfl
    rw [hstep, ih (step st (Event.frame p.1 p.2)) hp hs
      (by rw [hv1']; exact le_min (by linarith) hM) (by rw [hv1']; exact min_le_right _ _),
      hv1']
    simp only [List.length_cons]
    push_cast
    have hn : (0 : ℝ) ≤ (fs.length : ℝ) * discAcceleration := by positivity
    rcases le_total (st.discVelocity + discAcceleration) discMaxSpeed with h | h
    · rw [min_eq_left h]
      congr 1
      ring
    · rw [min_eq_right h, min_eq_right (by linarith),
        min_eq_right (by nlinarith)]

/-- During a drag (free spinning off), frames and pointer moves leave
the velocity, pause flag and drag flags unchanged. -/
lemma drag_run_aux (es : List Event) : ∀ st : DiscState,
    st.isDiskSpinning = false → (∀ e ∈ es, isDragEvent e) →
    (run st es).discVelocity = st.discVelocity ∧
    (run st es).isPaused = st.isPaused ∧
    (run st es).isDiskSpinning = false ∧
    (run st es).isDiskDragging = st.isDiskDragging := by
  induction es with
  | nil => exact fun st h _ => ⟨rfl, rfl, h, rfl⟩
  | cons e es ih =>
    intro st hspin hes
    have he : isDragEvent e := hes e (List.mem_cons_self e es)
    have hes' : ∀ x ∈ es, isDragEvent x := fun x hx => hes x (List.mem_cons_of_mem e hx)
    rcases he with ⟨d, t, rfl⟩ | ⟨x, y, rfl⟩
    · have h1 : (step st (Event.frame d t)).discVelocity = st.discVelocity := by
        show (if st.isDiskSpinning then
            if st.isPaused then max (st.discVelocity - discAcceleration) 0
            else min (st.discVelocity + discAcceleration) discMaxSpeed
          else st.discVelocity) = _
        rw [hspin]
        simp
      obtain ⟨g1, g2, g3, g4⟩ := ih (step st (Event.frame d t)) hspin hes'
      exact ⟨g1.trans h1, g2, g3, g4⟩
    · exact ih (step st (Event.mouseMove x y)) hspin hes'

/-! ## Claim theorems: render-loop velocity -/

/-- C1: from the mounted initial state, the angular velocity
`discVelocity` stays inside `[0, discMaxSpeed]` after any number of
frames, under any interleaving of pause, play, drag and track-change
events. -/
theorem discVelocity_within_range (es : List Event) :
    0 ≤ (run initState es).discVelocity ∧
    (run initState es).discVelocity ≤ discMaxSpeed :=
  vel_range_run es initState le_rfl (by norm_num [initState, discMaxSpeed])

/-- C3: every frame records a `setPlaybackRate` call whose argument is
exactly `discVelocity / discMaxSpeed` for the frame's velocity, and that
fraction always lies inside `[0, 1]`. -/
theorem tick_playback_rate_fraction (es : List Event) (d t : ℝ) :
    (run initState (es ++ [Event.frame d t])).lastRateArg
      = some ((run initState (es ++ [Event.frame d t])).discVelocity / discMaxSpeed) ∧
    0 ≤ (run initState (es ++ [Event.frame d t])).discVelocity / discMaxSpeed ∧
    (run initState (es ++ [Event.frame d t])).discVelocity / discMaxSpeed ≤ 1 := by
  have hrun : run initState (es ++ [Event.frame d t])
      = step (run initState es) (Event.frame d t) :=
    run_append initState es [Event.frame d t]
  have hrange := vel_range_run es initState le_rfl
    (by norm_num [initState, discMaxSpeed])
  have hM : (0 : ℝ) < discMaxSpeed := by norm_num [discMaxSpeed]
  have hnew := vel_range_step (run initState es) (Event.frame d t) hrange.1 hrange.2
  rw [hrun]
  exact ⟨rfl, div_nonneg hnew.1 hM.le, (div_le_one hM).2 hnew.2⟩

/-- C5: with pause sustained and the disc free-spinning, the velocity
after `n` frames is `max(v0 - n * discAcceleration, 0)` whatever the
frame deltas are; while at least `discAcceleration` remains, a further
frame subtracts exactly `discAcceleration`, and once the velocity is
`0` it stays `0`. -/
theorem paused_frames_velocity_decay (st : DiscState) (hp : st.isPaused = true)
    (hs : st.isDiskSpinning = true) (hv : 0 ≤ st.discVelocity)
    (fs : List (ℝ × ℝ)) (d t : ℝ) :
    (run st (frames fs)).discVelocity
      = max (st.discVelocity - (fs.length : ℝ) * discAcceleration) 0 ∧
    (discAcceleration ≤ (run st (frames fs)).discVelocity →
      (run (run st (frames fs)) [Event.frame d t]).discVelocity
        = (run st (frames fs)).discVelocity - discAcceleration) ∧
    ((run st (frames fs)).discVelocity = 0 →
      (run (run st (frames fs)) [Event.frame d t]).discVelocity = 0) := by
  obtain ⟨f1, f2, f3⟩ := run_frames_flags fs st
  have hp1 : (run st (frames fs)).isPaused = true := f1.trans hp
  have hs1 : (run st (frames fs)).isDiskSpinning = true := f2.trans hs
  have hone : (run (run st (frames fs)) [Event.frame d t]).discVelocity
      = max ((run st (frames fs)).discVelocity - discAcceleration) 0 := by
    show (if (run st (frames fs)).isDiskSpinning then
        if (run st (frames fs)).isPaused then
          max ((run st (frames fs)).discVelocity - discAcceleration) 0
        else min ((run st (frames fs)).discVelocity + discAcceleration) discMaxSpeed
      else (run st (frames fs)).discVelocity) = _
    rw [hp1, hs1]
    simp
  refine ⟨run_frames_paused fs st hp hs hv, fun hge => ?_, fun h0 => ?_⟩
  · rw [hone, max_eq_left (by linarith)]
  · rw [hone, h0, zero_sub, max_eq_right (by norm_num [discAcceleration])]

/-- C5 witness: a paused spin-down frame from velocity `1`. -/
theorem paused_frames_velocity_decay_witness :
    (run pausedSpinState (frames [(1, 0)])).discVelocity
      = max (pausedSpinState.discVelocity
          - (([((1 : ℝ), (0 : ℝ))] : List (ℝ × ℝ)).length : ℝ) * discAcceleration) 0 :=
  (paused_frames_velocity_decay pausedSpinState rfl rfl
    (by norm_num [pausedSpinState, initState]) [(1, 0)] 1 0).1

/-- C9: starting unpaused from velocity `0` (the constants of the source
are `discAcceleration = 0.03`, `discMaxSpeed = 1.5`), after `n ≤ 60`
frames the velocity is exactly `min(discMaxSpeed, discAcceleration * n)`,
and from the 50th frame on it is exactly `discMaxSpeed`. -/
theorem sixty_frame_velocity_ramp (fs : List (ℝ × ℝ)) (h60 : fs.length ≤ 60) :
    (run playingInitState (frames fs)).discVelocity
      = min discMaxSpeed (discAcceleration * (fs.length : ℝ)) ∧
    (50 ≤ fs.length →
      (run playingInitState (frames fs)).discVelocity = discMaxSpeed) := by
  have hcf := run_frames_unpaused fs playingInitState rfl rfl le_rfl
    (by norm_num [playingInitState, initState, discMaxSpeed])
  have hv0 : playingInitState.discVelocity = 0 := rfl
  rw [hv0, zero_add] at hcf
  constructor
  · rw [hcf, min_comm, mul_comm]
  · intro h50
    have h50' : (50 : ℝ) ≤ (fs.length : ℝ) := by exact_mod_cast h50
    rw [hcf, min_eq_right]
    rw [discAcceleration, discMaxSpeed]
    nlinarith

/-- C9 witness: after exactly 50 frames the velocity is
`discMaxSpeed`. -/
theorem sixty_frame_velocity_ramp_witness :
    (run playingInitState
        (frames (List.replicate 50 ((1 : ℝ), (0 : ℝ))))).discVelocity
      = discMaxSpeed :=
  (sixty_frame_velocity_ramp (List.replicate 50 ((1 : ℝ), (0 : ℝ)))
    (by simp)).2 (by simp)

/-- C6: a drag gesture (pointer down, then any frames and pointer
moves, then pointer up) never modifies `discVelocity`: it equals the
pre-drag value during the drag and immediately after release, and the
next frame resumes the free-spinning physics from that velocity. -/
theorem drag_leaves_velocity_unchanged (st : DiscState) (es : List Event)
    (hes : ∀ e ∈ es, isDragEvent e) (d t : ℝ) :
    (run st (Event.mouseDown :: es)).discVelocity = st.discVelocity ∧
    (run st (Event.mouseDown :: (es ++ [Event.mouseUp]))).discVelocity
      = st.discVelocity ∧
    (run st (Event.mouseDown :: (es ++ [Event.mouseUp, Event.frame d t]))).discVelocity
      = (if st.isPaused then max (st.discVelocity - discAcceleration) 0
         else min (st.discVelocity + discAcceleration) discMaxSpeed) := by
  obtain ⟨g1, g2, g3, g4⟩ := drag_run_aux es (step st Event.mouseDown) rfl hes
  have hrun1 : run st (Event.mouseDown :: es)
      = run (step st Event.mouseDown) es := rfl
  have hrun2 : run st (Event.mouseDown :: (es ++ [Event.mouseUp]))
      = step (run (step st Event.mouseDown) es) Event.mouseUp := by
    show run (step st Event.mouseDown) (es ++ [Event.mouseUp]) = _
    rw [run_append]
    rfl
  have hrun3 : run st (Event.mouseDown :: (es ++ [Event.mouseUp, Event.frame d t]))
      = step (step (run (step st Event.mouseDown) es) Event.mouseUp)
          (Event.frame d t) := by
    show run (step st Event.mouseDown) (es ++ [Event.mouseUp, Event.frame d t]) = _
    rw [run_append]
    rfl
  have hmdv : (step st Event.mouseDown).discVelocity = st.discVelocity := rfl
  have hmdp : (step st Event.mouseDown).isPaused = st.isPaused := rfl
  refine ⟨g1.trans hmdv, by rw [hrun2]; exact g1.trans hmdv, ?_⟩
  rw [hrun3]
  have hupv : (step (run (step st Event.mouseDown) es) Event.mouseUp).discVelocity
      = st.discVelocity := g1.trans hmdv
  have hupp : (step (run (step st Event.mouseDown) es) Event.mouseUp).isPaused
      = st.isPaused := g2.trans hmdp
  show (if (step (run (step st Event.mouseDown) es) Event.mouseUp).isDiskSpinning then
      if (step (run (step st Event.mouseDown) es) Event.mouseUp).isPaused then
        max ((step (run (step st Event.mouseDown) es) Event.mouseUp).discVelocity
          - discAcceleration) 0
      else min ((step (run (step st Event.mouseDown) es) Event.mouseUp).discVelocity
          + discAcceleration) discMaxSpeed
    else (step (run (step st Event.mouseDown) es) Event.mouseUp).discVelocity) = _
  rw [hupv, hupp]
  rfl

/-- C6 witness: one frame inside the drag, from the mounted state. -/
theorem drag_leaves_velocity_unchanged_witness :
    (run initState (Event.mouseDown :: [Event.frame 1 0])).discVelocity
      = initState.discVelocity :=
  (drag_leaves_velocity_unchanged initState [Event.frame 1 0]
    (by
      intro e he
      rw [List.mem_singleton] at he
      subst he
      exact Or.inl ⟨1, 0, rfl⟩) 1 0).1

/-! ## Helper lemmas: JavaScript remainder and `lerpAngle` -/

/-- The remainder of `0` is `0`. -/
lemma jsMod_zero (y : ℝ) : jsMod 0 y = 0 := by
  simp [jsMod, jsTrunc]

/-- For a nonnegative dividend and positive modulus, the truncated
remainder lies in `[0, m)`. -/
lemma jsMod_nonneg_lt (x m : ℝ) (hm : 0 < m) (hx : 0 ≤ x) :
    0 ≤ jsMod x m ∧ jsMod x m < m := by
  have hdiv : 0 ≤ x / m := div_nonneg hx hm.le
  have hrw : jsMod x m = x - m * ⌊x / m⌋ := by rw [jsMod, jsTrunc, if_pos hdiv]
  rw [hrw]
  have h1 := Int.sub_floor_div_mul_nonneg x hm
  have h2 := Int.sub_floor_div_mul_lt x hm
  constructor <;> linarith

/-- The truncated remainder is odd in the dividend. -/
lemma jsMod_neg_eq (m : ℝ) (hm : 0 < m) (x : ℝ) : jsMod (-x) m = -jsMod x m := by
  have key : ∀ y : ℝ, 0 < y → jsMod (-y) m = -jsMod y m := by
    intro y hy
    have hdiv : 0 ≤ y / m := div_nonneg hy.le hm.le
    have hneg : ¬ 0 ≤ -y / m := by
      rw [neg_div]
      simp only [Left.nonneg_neg_iff, not_le]
      exact div_pos hy hm
    rw [jsMod, jsMod, jsTrunc, jsTrunc, if_pos hdiv, if_neg hneg, neg_div,
      Int.ceil_neg]
    push_cast
    ring
  rcases lt_trichotomy x 0 with hx | hx | hx
  · have h := key (-x) (by linarith)
    rw [neg_neg] at h
    rw [h]
    ring
  · subst hx
    simp [jsMod_zero]
  · exact key x hx

/-- Inside `[0, m)` the truncated remainder is the identity. -/
lemma jsMod_eq_self_of (x m : ℝ) (hm : 0 < m) (h0 : 0 ≤ x) (h1 : x < m) :
    jsMod x m = x := by
  have hdiv0 : 0 ≤ x / m := div_nonneg h0 hm.le
  have hdiv1 : x / m < 1 := (div_lt_one hm).2 h1
  have hfl : ⌊x / m⌋ = 0 := Int.floor_eq_zero_iff.2 ⟨hdiv0, hdiv1⟩
  rw [jsMod, jsTrunc, if_pos hdiv0, hfl]
  push_cast
  ring

/-- Inside `[m, 2m)` the truncated remainder subtracts one period. -/
lemma jsMod_eq_sub_of (x m : ℝ) (hm : 0 < m) (h0 : m ≤ x) (h1 : x < 2 * m) :
    jsMod x m = x - m := by
  have hdiv0 : (1 : ℝ) ≤ x / m := (one_le_div hm).2 h0
  have hdiv1 : x / m < 2 := by rw [div_lt_iff₀ hm]; linarith
  have hfl : ⌊x / m⌋ = 1 := by
    rw [Int.floor_eq_iff]
    constructor
    · exact_mod_cast hdiv0
    · push_cast
      linarith
  rw [jsMod, jsTrunc, if_pos (le_trans zero_le_one hdiv0), hfl]
  push_cast
  ring

/-- The travelled angular distance differs from the raw difference by a
whole number of turns. -/
lemma shortDist_congr (x : ℝ) : ∃ k : ℤ, shortDist x = x + Real.pi * 2 * k := by
  obtain ⟨k2, hk2⟩ : ∃ k : ℤ, jsMod (2 * jsMod x (Real.pi * 2)) (Real.pi * 2)
      = 2 * jsMod x (Real.pi * 2) - Real.pi * 2 * k := ⟨_, rfl⟩
  obtain ⟨k1, hk1⟩ : ∃ k : ℤ, jsMod x (Real.pi * 2)
      = x - Real.pi * 2 * k := ⟨_, rfl⟩
  refine ⟨-(k1 + k2), ?_⟩
  unfold shortDist
  rw [hk2, hk1]
  push_cast
  ring

/-- The travelled angular distance of a zero difference is zero. -/
lemma shortDist_zero : shortDist 0 = 0 := by
  simp [shortDist, jsMod_zero]

/-- Bound for nonnegative differences: the travelled distance is at most
half a turn in absolute value. -/
lemma abs_shortDist_le_of_nonneg (x : ℝ) (hx : 0 ≤ x) :
    |shortDist x| ≤ Real.pi := by
  have hπ := Real.pi_pos
  have hm : 0 < Real.pi * 2 := by linarith
  obtain ⟨hd0, hd1⟩ := jsMod_nonneg_lt x (Real.pi * 2) hm hx
  rw [shortDist]
  rcases lt_or_le (jsMod x (Real.pi * 2)) Real.pi with h | h
  · rw [jsMod_eq_self_of (2 * jsMod x (Real.pi * 2)) (Real.pi * 2) hm
      (by linarith) (by linarith)]
    rw [abs_le]
    constructor <;> linarith
  · rw [jsMod_eq_sub_of (2 * jsMod x (Real.pi * 2)) (Real.pi * 2) hm
      (by linarith) (by linarith)]
    rw [abs_le]
    constructor <;> linarith

/-- The travelled angular distance is odd. -/
lemma shortDist_neg (x : ℝ) : shortDist (-x) = -shortDist x := by
  have hm : 0 < Real.pi * 2 := by have := Real.pi_pos; linarith
  rw [shortDist, shortDist, jsMod_neg_eq _ hm x,
    show 2 * -jsMod x (Real.pi * 2) = -(2 * jsMod x (Real.pi * 2)) by ring,
    jsMod_neg_eq _ hm]
  ring

/-- The travelled angular distance is at most half a turn in absolute
value. -/
lemma abs_shortDist_le (x : ℝ) : |shortDist x| ≤ Real.pi := by
  rcases le_or_lt 0 x with hx | hx
  · exact abs_shortDist_le_of_nonneg x hx
  · have h := abs_shortDist_le_of_nonneg (-x) (by linarith)
    rw [shortDist_neg, abs_neg] at h
    exact h

/-- Interpolating an angle toward itself is the identity. -/
lemma lerpAngle_self_aux (a t : ℝ) : lerpAngle a a t = a := by
  have h : lerpAngle a a t = a + shortDist (a - a) * t := rfl
  rw [h, sub_self, shortDist_zero, zero_mul, add_zero]

/-! ## Claim theorems: angle interpolation -/

/-- C8: `lerpAngle a b t` equals `a + d * t` for a distance `d` that is
congruent to `b - a` modulo a full turn and has absolute value at most
half a turn, so the interpolation follows the shortest angular path; in
particular `lerpAngle a a t = a` and `lerpAngle a b 0 = a`. -/
theorem lerpAngle_shortest_path (a b : ℝ) :
    (∃ d : ℝ, (∃ k : ℤ, d = (b - a) + Real.pi * 2 * k) ∧ |d| ≤ Real.pi ∧
      ∀ t : ℝ, lerpAngle a b t = a + d * t) ∧
    (∀ t : ℝ, lerpAngle a a t = a) ∧ lerpAngle a b 0 = a := by
  refine ⟨⟨shortDist (b - a), shortDist_congr (b - a), abs_shortDist_le (b - a),
    fun t => rfl⟩, fun t => lerpAngle_self_aux a t, ?_⟩
  rw [show lerpAngle a b 0 = a + shortDist (b - a) * 0 from rfl, mul_zero, add_zero]

/-! ## Claim theorems: per-frame rotation update -/

/-- C4 counterexample: on a dragging frame with frozen velocity
`discMaxSpeed` and delta `1`, `tick` does not leave the rotation at the
interpolated angle — it additionally adds `discVelocity * delta`, so the
rotation is not updated exclusively by the interpolation. -/
theorem tick_drag_rotation_cex :
    (tick draggingState 1 0).discRotation
      ≠ lerpAngle draggingState.discRotation
          (0 + draggingState.dragStartRotation) 0.05 := by
  have h2 : lerpAngle (0 : ℝ) (0 + 0) 0.05 = 0 := by
    rw [add_zero]
    exact lerpAngle_self_aux 0 0.05
  have h1 : (tick draggingState 1 0).discRotation
      = lerpAngle (0 : ℝ) (0 + 0) 0.05 + discMaxSpeed * 1 := rfl
  have h3 : lerpAngle draggingState.discRotation
      (0 + draggingState.dragStartRotation) 0.05
      = lerpAngle (0 : ℝ) (0 + 0) 0.05 := rfl
  rw [h1, h3, h2, zero_add, mul_one]
  norm_num [discMaxSpeed]

/-- C4 amended: each frame ends with
`discRotation += discVelocity * delta`; on a non-dragging frame that is
the only rotation update, while on a dragging frame the rotation is
first blended by `lerpAngle` toward the pointer-derived target plus the
drag-start angle and then still incremented by `discVelocity * delta`. -/
theorem tick_rotation_update (st : DiscState) (d t : ℝ) :
    (st.isDiskDragging = false →
      (tick st d t).discRotation
        = st.discRotation + (tick st d t).discVelocity * d) ∧
    (st.isDiskDragging = true →
      (tick st d t).discRotation
        = lerpAngle st.discRotation (t + st.dragStartRotation) 0.05
            + (tick st d t).discVelocity * d) := by
  constructor
  · intro h
    simp [tick, h]
  · intro h
    simp [tick, h]

/-- C4 amended witness: the dragging branch evaluated at the concrete
dragging state. -/
theorem tick_rotation_update_witness :
    (tick draggingState 1 0).discRotation
      = lerpAngle draggingState.discRotation (0 + draggingState.dragStartRotation) 0.05
          + (tick draggingState 1 0).discVelocity * 1 :=
  (tick_rotation_update draggingState 1 0).2 rfl

end Miso
